import Mathlib

/-
Verification of the perplexity-completions-mcp repository.

Shallow embedding notes:
* Byte streams and JS strings are modelled as `List Char` (the `TextDecoder`
  handles UTF-8 byte boundaries; chunk boundaries are modelled at character
  granularity, which is what the line-buffering logic observes).
* `JSON.parse` is an external runtime collaborator; the stream decoder is
  parameterised by an abstract `parse : List Char → Option StreamChunk`
  (`none` models a thrown SyntaxError, which the source catches and skips).
* JS numbers are modelled as `Rat` (no NaN; the only truthiness fact the
  source relies on is that `0` is falsy).
-/

abbrev Chars := List Char

def newlineChar : Char := '\n'

/-- The SSE event prefix `"data: "` checked by `line.startsWith('data: ')`. -/
def dataTag : Chars := "data: ".data

/-- The payload of the completion sentinel frame, compared after `line.slice(6)`. -/
def doneData : Chars := "[DONE]".data

/-- The full completion sentinel line `"data: [DONE]"`. -/
def doneLine : Chars := "data: [DONE]".data

/-- Whitespace characters removed by `String.prototype.trim` that can occur in
a single SSE line (a line never contains `'\n'`). -/
def isJsWhitespace (c : Char) : Bool :=
  c = ' ' || c = '\t' || c = '\r' || c = '\x0c' || c = '\x0b'

/-- JS `line.split('\n')`: the list of separator-free parts; always non-empty. -/
def splitNl : Chars → List Chars
  | [] => [[]]
  | c :: cs =>
    if c = newlineChar then [] :: splitNl cs
    else
      match splitNl cs with
      | [] => [[c]]
      | p :: ps => (c :: p) :: ps

/-- JS `lines.pop() || ''` on a non-empty array: the last part. -/
def lastChars (l : List Chars) : Chars := (l.getLast?).getD []

/-- Proof helper: merge a pending buffer into the head of a later split. -/
def glue (b : Chars) : List Chars → List Chars
  | [] => [b]
  | p :: ps => (b ++ p) :: ps

theorem splitNl_ne_nil (s : Chars) : splitNl s ≠ [] := by
  cases s with
  | nil => simp [splitNl]
  | cons c cs =>
    simp only [splitNl]
    split
    · simp
    · split <;> simp

theorem splitNl_no_newline (s : Chars) : ∀ p ∈ splitNl s, newlineChar ∉ p := by
  induction s with
  | nil => intro p hp; simp [splitNl] at hp; simp [hp]
  | cons c cs ih =>
    intro p hp
    simp only [splitNl] at hp
    by_cases hc : c = newlineChar
    · rw [if_pos hc] at hp
      rcases List.mem_cons.mp hp with h | h
      · simp [h]
      · exact ih p h
    · rw [if_neg hc] at hp
      rcases hq : splitNl cs with _ | ⟨q, qs⟩
      · exact absurd hq (splitNl_ne_nil cs)
      · rw [hq] at hp
        rcases List.mem_cons.mp hp with h | h
        · subst h
          intro hmem
          rcases List.mem_cons.mp hmem with h1 | h1
          · exact hc h1.symm
          · exact ih q (by rw [hq]; exact List.mem_cons_self q qs) h1
        · exact ih p (by rw [hq]; exact List.mem_cons_of_mem q h)

theorem splitNl_of_no_newline (s : Chars) (h : newlineChar ∉ s) : splitNl s = [s] := by
  induction s with
  | nil => rfl
  | cons c cs ih =>
    have hc : ¬ c = newlineChar := fun he => h (by simp [he])
    have hcs : newlineChar ∉ cs := fun hm => h (List.mem_cons_of_mem c hm)
    simp only [splitNl, if_neg hc, ih hcs]

theorem glue_ne_nil (b : Chars) (l : List Chars) : glue b l ≠ [] := by
  cases l <;> simp [glue]

theorem dropLast_append_ne_nil {α : Type} (u : List α) {v : List α} (hv : v ≠ []) :
    (u ++ v).dropLast = u ++ v.dropLast := by
  cases v with
  | nil => exact absurd rfl hv
  | cons b l => exact List.dropLast_append_cons

theorem splitNl_cons_nl (cs : Chars) : splitNl (newlineChar :: cs) = [] :: splitNl cs := by
  simp [splitNl]

theorem splitNl_cons_of_ne {c : Char} (cs : Chars) (hc : ¬ c = newlineChar)
    {q : Chars} {qs : List Chars} (h : splitNl cs = q :: qs) :
    splitNl (c :: cs) = (c :: q) :: qs := by
  simp only [splitNl, if_neg hc, h]

theorem splitNl_append (a b : Chars) :
    splitNl (a ++ b) = (splitNl a).dropLast ++ glue (lastChars (splitNl a)) (splitNl b) := by
  induction a with
  | nil =>
    rcases hb : splitNl b with _ | ⟨q, qs⟩
    · exact absurd hb (splitNl_ne_nil b)
    · simp [splitNl, lastChars, glue, hb]
  | cons c a' ih =>
    by_cases hc : c = newlineChar
    · subst hc
      rw [List.cons_append, splitNl_cons_nl, splitNl_cons_nl, ih]
      rcases ha : splitNl a' with _ | ⟨p, ps⟩
      · exact absurd ha (splitNl_ne_nil a')
      · simp [lastChars, List.getLast?_cons]
    · rcases ha : splitNl a' with _ | ⟨p, ps⟩
      · exact absurd ha (splitNl_ne_nil a')
      · rcases hab : splitNl (a' ++ b) with _ | ⟨q, qs⟩
        · exact absurd hab (splitNl_ne_nil (a' ++ b))
        · have h1 : splitNl ((c :: a') ++ b) = (c :: q) :: qs := by
            rw [List.cons_append]
            exact splitNl_cons_of_ne (a' ++ b) hc hab
          rw [h1, splitNl_cons_of_ne a' hc ha]
          rw [ha, hab] at ih
          cases ps with
          | nil =>
            rcases hb : splitNl b with _ | ⟨r, rs⟩
            · exact absurd hb (splitNl_ne_nil b)
            · rw [hb] at ih
              have hih : q :: qs = (p ++ r) :: rs := by
                rw [ih]; simp [lastChars, glue]
              injection hih with h3 h4
              subst h3; subst h4
              simp [lastChars, glue, hb]
          | cons p2 ps' =>
            have hih : q :: qs =
                p :: ((p2 :: ps').dropLast ++ glue (lastChars (p2 :: ps')) (splitNl b)) := by
              rw [ih]
              simp [lastChars, List.getLast?_cons_cons]
            injection hih with h3 h4
            subst h3; subst h4
            simp [lastChars, List.getLast?_cons_cons, glue]

theorem splitNl_frame_cons (f : Chars) (hf : newlineChar ∉ f) (t : Chars) :
    splitNl (f ++ newlineChar :: t) = f :: splitNl t := by
  induction f with
  | nil => simp [splitNl_cons_nl]
  | cons c f' ih =>
    have hc : ¬ c = newlineChar := fun he => hf (by simp [he])
    have hf' : newlineChar ∉ f' := fun hm => hf (List.mem_cons_of_mem c hm)
    rw [List.cons_append]
    rcases ht : splitNl (f' ++ newlineChar :: t) with _ | ⟨q, qs⟩
    · exact absurd ht (splitNl_ne_nil _)
    · rw [splitNl_cons_of_ne _ hc ht]
      rw [ih hf'] at ht
      injection ht with h1 h2
      rw [h1, h2]

/-- The byte stream of a sequence of SSE lines, each terminated by a newline. -/
def sseJoin (frames : List Chars) : Chars :=
  (frames.map (fun f => f ++ [newlineChar])).flatten

theorem splitNl_sseJoin (frames : List Chars) (h : ∀ f ∈ frames, newlineChar ∉ f) :
    splitNl (sseJoin frames) = frames ++ [[]] := by
  induction frames with
  | nil => simp [sseJoin, splitNl]
  | cons f fr ih =>
    have hf : newlineChar ∉ f := h f (List.mem_cons_self f fr)
    have hfr : ∀ g ∈ fr, newlineChar ∉ g := fun g hg => h g (List.mem_cons_of_mem f hg)
    show splitNl ((f ++ [newlineChar]) ++ sseJoin fr) = (f :: fr) ++ [[]]
    rw [List.append_assoc, List.singleton_append, splitNl_frame_cons f hf, ih hfr]
    rfl

/-- `SearchResult` from the source: a citation entry. -/
structure SearchResult where
  title : Chars
  url : Chars
  snippet : Option Chars
deriving DecidableEq, Repr

/-- `Usage` token counters from the source. -/
structure Usage where
  prompt_tokens : Nat
  completion_tokens : Nat
  total_tokens : Nat
deriving DecidableEq, Repr

/-- `StreamDelta` from the source (fields optional in JSON). -/
structure StreamDelta where
  content : Option Chars
  role : Option Chars
deriving DecidableEq, Repr

/-- `StreamChoice` from the source. -/
structure StreamChoice where
  delta : StreamDelta
  index : Nat
  finish_reason : Option Chars
deriving DecidableEq, Repr

/-- `StreamChunk`: one decoded SSE frame payload. `none` on an optional field
models the JSON field being absent (or `null`, which the source treats the
same through its truthiness guards on `search_results`). -/
structure StreamChunk where
  id : Chars
  model : Chars
  choices : List StreamChoice
  search_results : Option (List SearchResult)
  usage : Option Usage
deriving DecidableEq, Repr

/-- `chunk.choices[0]?.delta?.content` followed by the JS truthiness guard
`if (delta)`: both an absent delta and the empty string contribute nothing. -/
def chunkDelta (c : StreamChunk) : Chars :=
  match c.choices.head? with
  | some ch => ch.delta.content.getD []
  | none => []

/-- Accumulator state of `handleStreamingResponse`: the `content` and
`searchResults` locals. -/
structure SseAcc where
  content : Chars
  search_results : Option (List SearchResult)
deriving DecidableEq, Repr

def initialSseAcc : SseAcc := { content := [], search_results := none }

/-- Loop body of `handleStreamingResponse` for one successfully parsed chunk
(index.ts lines 310-322): append the truthy delta, and capture
`chunk.search_results` whenever it is present (JS: any array is truthy,
including the empty one). -/
def applyStreamChunk (c : StreamChunk) (acc : SseAcc) : SseAcc :=
  { content := acc.content ++ chunkDelta c,
    search_results :=
      match c.search_results with
      | some rs => some rs
      | none => acc.search_results }

/-- One `data: ` line handed to `JSON.parse`; a parse failure is caught and
skipped (`continue`). -/
def applyDataLine (parse : Chars → Option StreamChunk) (line : Chars) (acc : SseAcc) : SseAcc :=
  match parse (line.drop 6) with
  | some c => applyStreamChunk c acc
  | none => acc

/-- The guard `if (!line.trim() || !line.startsWith('data: ')) continue`. -/
def skipLine (line : Chars) : Bool :=
  line.all isJsWhitespace || ! dataTag.isPrefixOf line

/-- A line at which the `for` loop executes `break`: a non-skipped line whose
payload is the completion sentinel. -/
def stopsLine (line : Chars) : Prop :=
  ¬ skipLine line = true ∧ line.drop 6 = doneData

instance (line : Chars) : Decidable (stopsLine line) := by
  unfold stopsLine; infer_instance

/-- The `for (const line of lines)` loop of `handleStreamingResponse`
(index.ts lines 299-327): skip blank / non-`data: ` lines, `break` on the
`[DONE]` sentinel (abandoning the remaining lines of this chunk only), and
otherwise fold the parsed chunk into the accumulator. -/
def handleStreamingLines (parse : Chars → Option StreamChunk) :
    List Chars → SseAcc → SseAcc
  | [], acc => acc
  | line :: rest, acc =>
    if skipLine line then handleStreamingLines parse rest acc
    else if line.drop 6 = doneData then acc
    else handleStreamingLines parse rest (applyDataLine parse line acc)

/-- Decoder state across `reader.read()` iterations: the `buffer` local plus
the accumulator. -/
structure DecodeState where
  buffer : Chars
  acc : SseAcc
deriving DecidableEq, Repr

/-- One iteration of the `while` loop of `handleStreamingResponse`
(index.ts lines 289-328): append the decoded chunk to the buffer, split on
newlines, keep the trailing incomplete line (`buffer = lines.pop() || ''`)
and process every complete line. -/
def handleStreamingChunk (parse : Chars → Option StreamChunk)
    (st : DecodeState) (chunk : Chars) : DecodeState :=
  let parts := splitNl (st.buffer ++ chunk)
  { buffer := lastChars parts,
    acc := handleStreamingLines parse parts.dropLast st.acc }

/-- The whole read loop over a given division of the byte stream into read
chunks, starting from the empty buffer and empty accumulator. -/
def handleStreamingRun (parse : Chars → Option StreamChunk)
    (chunks : List Chars) : DecodeState :=
  chunks.foldl (handleStreamingChunk parse) { buffer := [], acc := initialSseAcc }

/-- The text-delta contribution of a single complete line, as extracted by the
loop body: nothing for skipped lines and unparsable payloads, otherwise the
chunk's (possibly empty) first-choice delta content. -/
def lineDelta (parse : Chars → Option StreamChunk) (line : Chars) : Chars :=
  if skipLine line then []
  else
    match parse (line.drop 6) with
    | some c => chunkDelta c
    | none => []


theorem lastChars_mem {l : List Chars} (h : l ≠ []) : lastChars l ∈ l := by
  unfold lastChars
  rcases hg : l.getLast? with _ | x
  · exact absurd (List.getLast?_eq_none_iff.mp hg) h
  · simp only [Option.getD_some]
    exact List.mem_of_getLast?_eq_some hg

theorem handleStreamingLines_append (parse : Chars → Option StreamChunk)
    (xs ys : List Chars) (acc : SseAcc) (h : ∀ l ∈ xs, ¬ stopsLine l) :
    handleStreamingLines parse (xs ++ ys) acc =
      handleStreamingLines parse ys (handleStreamingLines parse xs acc) := by
  induction xs generalizing acc with
  | nil => rfl
  | cons l ls ih =>
    have hl : ¬ stopsLine l := h l (List.mem_cons_self l ls)
    have hls : ∀ x ∈ ls, ¬ stopsLine x := fun x hx => h x (List.mem_cons_of_mem l hx)
    rw [List.cons_append]
    by_cases hskip : skipLine l = true
    · simp only [handleStreamingLines, if_pos hskip]
      exact ih acc hls
    · have hdone : ¬ l.drop 6 = doneData := fun hd => hl ⟨hskip, hd⟩
      simp only [handleStreamingLines, if_neg hskip, if_neg hdone]
      exact ih _ hls

theorem handleStreamingLines_content (parse : Chars → Option StreamChunk)
    (xs : List Chars) (acc : SseAcc) (h : ∀ l ∈ xs, ¬ stopsLine l) :
    (handleStreamingLines parse xs acc).content =
      acc.content ++ (xs.map (lineDelta parse)).flatten := by
  induction xs generalizing acc with
  | nil => simp [handleStreamingLines]
  | cons l ls ih =>
    have hl : ¬ stopsLine l := h l (List.mem_cons_self l ls)
    have hls : ∀ x ∈ ls, ¬ stopsLine x := fun x hx => h x (List.mem_cons_of_mem l hx)
    by_cases hskip : skipLine l = true
    · simp only [handleStreamingLines, if_pos hskip, ih _ hls, List.map_cons,
        lineDelta, List.flatten_cons]
      simp [if_pos hskip]
    · have hdone : ¬ l.drop 6 = doneData := fun hd => hl ⟨hskip, hd⟩
      have hld : lineDelta parse l =
          (match parse (l.drop 6) with | some c => chunkDelta c | none => []) := by
        simp [lineDelta, hskip]
      simp only [handleStreamingLines, if_neg hskip, if_neg hdone, ih _ hls,
        List.map_cons, List.flatten_cons, hld]
      cases hp : parse (l.drop 6) with
      | none => simp [applyDataLine, hp]
      | some c => simp [applyDataLine, hp, applyStreamChunk]

/-- Reference decoder state after having consumed the byte prefix `p` of a
stream: the trailing part of `p` after its last newline is buffered, and
every complete line of `p` has been processed. -/
def decodeStateAt (parse : Chars → Option StreamChunk) (p : Chars) : DecodeState :=
  { buffer := lastChars (splitNl p),
    acc := handleStreamingLines parse (splitNl p).dropLast initialSseAcc }

theorem stopsLine_doneLine : stopsLine doneLine := by decide

theorem handleStreamingChunk_step (parse : Chars → Option StreamChunk)
    (fs : List Chars) (hnl : ∀ f ∈ fs, newlineChar ∉ f)
    (hstop : ∀ f ∈ fs, ¬ stopsLine f)
    (p c rest : Chars) (hS : p ++ (c ++ rest) = sseJoin (fs ++ [doneLine])) :
    handleStreamingChunk parse (decodeStateAt parse p) c = decodeStateAt parse (p ++ c) := by
  have hframes : ∀ f ∈ fs ++ [doneLine], newlineChar ∉ f := by
    intro f hf
    rcases List.mem_append.mp hf with h | h
    · exact hnl f h
    · rw [List.mem_singleton.mp h]; decide
  have hbufnl : newlineChar ∉ lastChars (splitNl p) :=
    splitNl_no_newline p _ (lastChars_mem (splitNl_ne_nil p))
  have hsplitbc : splitNl (lastChars (splitNl p) ++ c) = glue (lastChars (splitNl p)) (splitNl c) := by
    rw [splitNl_append, splitNl_of_no_newline _ hbufnl]
    simp [lastChars]
  have hsplitpc : splitNl (p ++ c) =
      (splitNl p).dropLast ++ glue (lastChars (splitNl p)) (splitNl c) := splitNl_append p c
  by_cases hA : ∀ l ∈ (splitNl p).dropLast, ¬ stopsLine l
  · -- no sentinel among the already-complete lines: plain composition
    have hbuf : lastChars (glue (lastChars (splitNl p)) (splitNl c)) =
        lastChars ((splitNl p).dropLast ++ glue (lastChars (splitNl p)) (splitNl c)) := by
      unfold lastChars
      rw [List.getLast?_append_of_ne_nil _ (glue_ne_nil _ _)]
    have hacc : handleStreamingLines parse (glue (lastChars (splitNl p)) (splitNl c)).dropLast
          (handleStreamingLines parse (splitNl p).dropLast initialSseAcc) =
        handleStreamingLines parse
          ((splitNl p).dropLast ++ glue (lastChars (splitNl p)) (splitNl c)).dropLast
          initialSseAcc := by
      rw [dropLast_append_ne_nil _ (glue_ne_nil _ _),
        handleStreamingLines_append parse _ _ _ hA]
    unfold handleStreamingChunk decodeStateAt
    simp only [hsplitbc, hsplitpc, DecodeState.mk.injEq]
    exact ⟨hbuf, hacc⟩
  · -- the sentinel is already among the complete lines: the stream is exhausted
    push_neg at hA
    obtain ⟨l, hlmem, hlstop⟩ := hA
    have hQ : (fs ++ [doneLine]) ++ [[]] =
        (splitNl p).dropLast ++ glue (lastChars (splitNl p)) (splitNl (c ++ rest)) := by
      rw [← splitNl_sseJoin _ hframes, ← hS]
      exact splitNl_append p (c ++ rest)
    have hQ2 : fs ++ [doneLine] =
        (splitNl p).dropLast ++ (glue (lastChars (splitNl p)) (splitNl (c ++ rest))).dropLast := by
      have h2 := congrArg List.dropLast hQ
      rwa [List.dropLast_concat, dropLast_append_ne_nil _ (glue_ne_nil _ _)] at h2
    have hlin : l ∈ fs ++ [doneLine] := by
      rw [hQ2]; exact List.mem_append_left _ hlmem
    have hldone : l = doneLine := by
      rcases List.mem_append.mp hlin with h | h
      · exact absurd hlstop (hstop l h)
      · exact List.mem_singleton.mp h
    have hdonenotfs : doneLine ∉ fs := fun hmem => hstop doneLine hmem stopsLine_doneLine
    have hD : (glue (lastChars (splitNl p)) (splitNl (c ++ rest))).dropLast = [] := by
      rcases hDcase : (glue (lastChars (splitNl p)) (splitNl (c ++ rest))).dropLast with _ | ⟨d, ds⟩
      · rfl
      · exfalso
        rw [hDcase] at hQ2
        have hlen : (splitNl p).dropLast.length ≤ fs.length := by
          have h3 := congrArg List.length hQ2
          simp only [List.length_append, List.length_cons, List.length_nil] at h3
          omega
        have hA2 : (splitNl p).dropLast = fs.take (splitNl p).dropLast.length := by
          have h1 := congrArg (List.take (splitNl p).dropLast.length) hQ2
          rw [List.take_left, List.take_append_of_le_length hlen] at h1
          exact h1.symm
        have hmem2 : doneLine ∈ fs := by
          have hmem : doneLine ∈ (splitNl p).dropLast := by rw [← hldone]; exact hlmem
          rw [hA2] at hmem
          exact List.take_subset _ _ hmem
        exact hdonenotfs hmem2
    have hApart : (splitNl p).dropLast = fs ++ [doneLine] := by
      rw [hQ2, hD, List.append_nil]
    have hG : glue (lastChars (splitNl p)) (splitNl (c ++ rest)) = [[]] := by
      rw [hApart] at hQ
      exact (List.append_cancel_left hQ).symm
    have hcrest : c ++ rest = [] := by
      rcases hsc : splitNl (c ++ rest) with _ | ⟨q, qs⟩
      · exact absurd hsc (splitNl_ne_nil _)
      · rw [hsc] at hG
        unfold glue at hG
        injection hG with h1 h2
        subst h2
        have hq : q = [] := (List.append_eq_nil.mp h1).2
        rw [hq] at hsc
        cases hcr : c ++ rest with
        | nil => rfl
        | cons ch cs =>
          exfalso
          rw [hcr] at hsc
          by_cases hch : ch = newlineChar
          · rw [hch, splitNl_cons_nl] at hsc
            injection hsc with g1 g2
            exact splitNl_ne_nil cs g2
          · rcases hcs : splitNl cs with _ | ⟨r, rs⟩
            · exact absurd hcs (splitNl_ne_nil cs)
            · rw [splitNl_cons_of_ne cs hch hcs] at hsc
              injection hsc with g1 g2
              exact List.cons_ne_nil ch r g1
    have hc0 : c = [] := (List.append_eq_nil.mp hcrest).1
    subst hc0
    unfold handleStreamingChunk decodeStateAt
    simp only [List.append_nil, DecodeState.mk.injEq]
    rw [splitNl_of_no_newline _ hbufnl]
    exact ⟨by simp [lastChars], by simp [handleStreamingLines]⟩

theorem handleStreamingRun_invariant (parse : Chars → Option StreamChunk)
    (fs : List Chars) (hnl : ∀ f ∈ fs, newlineChar ∉ f)
    (hstop : ∀ f ∈ fs, ¬ stopsLine f) :
    ∀ (chunks : List Chars) (p : Chars),
      p ++ chunks.flatten = sseJoin (fs ++ [doneLine]) →
      chunks.foldl (handleStreamingChunk parse) (decodeStateAt parse p) =
        decodeStateAt parse (p ++ chunks.flatten) := by
  intro chunks
  induction chunks with
  | nil => intro p _; simp
  | cons c cs ih =>
    intro p hS
    have hS' : p ++ (c ++ cs.flatten) = sseJoin (fs ++ [doneLine]) := by
      rw [← hS]; simp [List.flatten_cons]
    have hstep := handleStreamingChunk_step parse fs hnl hstop p c cs.flatten hS'
    have hS'' : (p ++ c) ++ cs.flatten = sseJoin (fs ++ [doneLine]) := by
      rw [← hS']; simp [List.append_assoc]
    calc (c :: cs).foldl (handleStreamingChunk parse) (decodeStateAt parse p)
        = cs.foldl (handleStreamingChunk parse) (handleStreamingChunk parse (decodeStateAt parse p) c) := rfl
      _ = cs.foldl (handleStreamingChunk parse) (decodeStateAt parse (p ++ c)) := by rw [hstep]
      _ = decodeStateAt parse ((p ++ c) ++ cs.flatten) := ih (p ++ c) hS''
      _ = decodeStateAt parse (p ++ (c :: cs).flatten) := by
          rw [List.flatten_cons, ← List.append_assoc]

/-- C1: for every well-formed SSE event sequence ending in the completion
sentinel, and every division of the byte stream into read chunks, the
streaming accumulator of `handleStreamingResponse` /
`consumePerplexityStream` produces exactly the concatenation of all
text deltas in arrival order — independent of where the chunk boundaries
fall (the trailing incomplete line is always buffered). The right-hand side
does not mention `chunks`, so any two divisions of the same stream agree. -/
theorem c1_stream_accumulation_chunk_invariant (parse : Chars → Option StreamChunk)
    (fs chunks : List Chars)
    (hnl : ∀ f ∈ fs, newlineChar ∉ f)
    (hstop : ∀ f ∈ fs, ¬ stopsLine f)
    (hjoin : chunks.flatten = sseJoin (fs ++ [doneLine])) :
    (handleStreamingRun parse chunks).acc.content = (fs.map (lineDelta parse)).flatten := by
  have hframes : ∀ f ∈ fs ++ [doneLine], newlineChar ∉ f := by
    intro f hf
    rcases List.mem_append.mp hf with h | h
    · exact hnl f h
    · rw [List.mem_singleton.mp h]; decide
  have hinit : ({ buffer := [], acc := initialSseAcc } : DecodeState) =
      decodeStateAt parse [] := by
    simp [decodeStateAt, splitNl, lastChars, handleStreamingLines]
  have hrun : handleStreamingRun parse chunks = decodeStateAt parse chunks.flatten := by
    unfold handleStreamingRun
    rw [hinit]
    have := handleStreamingRun_invariant parse fs hnl hstop chunks [] (by simpa using hjoin)
    simpa using this
  rw [hrun, hjoin]
  unfold decodeStateAt
  rw [splitNl_sseJoin _ hframes, List.dropLast_concat]
  rw [handleStreamingLines_append parse fs [doneLine] initialSseAcc hstop]
  have hdone : handleStreamingLines parse [doneLine]
      (handleStreamingLines parse fs initialSseAcc) =
      handleStreamingLines parse fs initialSseAcc := by
    have h1 : skipLine doneLine = false := by decide
    have h2 : doneLine.drop 6 = doneData := by decide
    simp [handleStreamingLines, h1, h2]
  rw [hdone, handleStreamingLines_content parse fs initialSseAcc hstop]
  simp [initialSseAcc]

/-- A concrete chunk used to instantiate the abstract `JSON.parse` in
witnesses: one choice whose delta content is `"hi"`. -/
def chunkW : StreamChunk :=
  { id := "w".data, model := "sonar".data,
    choices := [{ delta := { content := some "hi".data, role := none },
                  index := 0, finish_reason := none }],
    search_results := none, usage := none }

/-- A concrete stand-in for `JSON.parse` on the payloads used in witnesses:
the payload `"x"` decodes to `chunkW`, everything else fails to parse. -/
def testParse (payload : Chars) : Option StreamChunk :=
  if payload = "x".data then some chunkW else none

theorem c1_witness :
    (∀ f ∈ (["data: x".data] : List Chars), newlineChar ∉ f) ∧
    (∀ f ∈ (["data: x".data] : List Chars), ¬ stopsLine f) ∧
    (["data:".data, " x\ndata: [DONE]\n".data] : List Chars).flatten =
      sseJoin (["data: x".data] ++ [doneLine]) ∧
    (handleStreamingRun testParse ["data:".data, " x\ndata: [DONE]\n".data]).acc.content =
      "hi".data :=
  ⟨by decide, by decide, by decide,
    (c1_stream_accumulation_chunk_invariant testParse ["data: x".data]
      ["data:".data, " x\ndata: [DONE]\n".data]
      (by decide) (by decide) (by decide)).trans (by decide)⟩

theorem isPrefixOf_exists : ∀ (u v : Chars), u.isPrefixOf v = true → ∃ t, v = u ++ t := by
  intro u
  induction u with
  | nil => intro v _; exact ⟨v, rfl⟩
  | cons a u' ih =>
    intro v h
    cases v with
    | nil => simp [List.isPrefixOf] at h
    | cons b v' =>
      simp only [List.isPrefixOf, Bool.and_eq_true, beq_iff_eq] at h
      obtain ⟨hab, h2⟩ := h
      obtain ⟨t, ht⟩ := ih v' h2
      subst hab
      exact ⟨t, by rw [List.cons_append, ht]⟩

/-- C8: a malformed frame (a `data: ` line whose payload fails to parse)
sitting between two groups of lines is simply skipped: the decode loop
produces exactly the state it would produce on the stream without that
frame, so every subsequent valid frame is still processed and no error
escapes the loop (the `catch` is modelled as the identity step). -/
theorem c8_malformed_frame_skipped (parse : Chars → Option StreamChunk)
    (bad : Chars) (pre post : List Chars) (acc : SseAcc)
    (hdata : dataTag.isPrefixOf bad = true)
    (hnotdone : bad.drop 6 ≠ doneData)
    (hparse : parse (bad.drop 6) = none) :
    handleStreamingLines parse (pre ++ bad :: post) acc =
      handleStreamingLines parse (pre ++ post) acc := by
  obtain ⟨t, ht⟩ := isPrefixOf_exists dataTag bad hdata
  have hall : bad.all isJsWhitespace = false := by
    rw [ht, List.all_append]
    have hd : dataTag.all isJsWhitespace = false := by decide
    simp [hd]
  have hskip : skipLine bad = false := by
    unfold skipLine
    rw [hall, hdata]
    rfl
  induction pre generalizing acc with
  | nil =>
    simp only [List.nil_append]
    simp only [handleStreamingLines, hskip, Bool.false_eq_true, if_false, if_neg hnotdone]
    simp [applyDataLine, hparse]
  | cons l pre' ih =>
    rw [List.cons_append, List.cons_append]
    by_cases hsl : skipLine l = true
    · simp only [handleStreamingLines, if_pos hsl]
      exact ih acc
    · by_cases hdl : l.drop 6 = doneData
      · simp only [handleStreamingLines, if_neg hsl, if_pos hdl]
      · simp only [handleStreamingLines, if_neg hsl, if_neg hdl]
        exact ih _

theorem c8_witness :
    dataTag.isPrefixOf "data: zzz".data = true ∧
    ("data: zzz".data : Chars).drop 6 ≠ doneData ∧
    testParse (("data: zzz".data : Chars).drop 6) = none ∧
    handleStreamingLines testParse
        (["data: x".data] ++ "data: zzz".data :: ["data: x".data]) initialSseAcc =
      handleStreamingLines testParse (["data: x".data] ++ ["data: x".data]) initialSseAcc :=
  ⟨by decide, by decide, by decide,
    c8_malformed_frame_skipped testParse "data: zzz".data ["data: x".data]
      ["data: x".data] initialSseAcc (by decide) (by decide) (by decide)⟩

/-- Accumulator state of `consumePerplexityStream` (part_000 lines 1064-1068):
`content`, `searchResults` and `lastChunk`. -/
structure ConsumeAcc where
  content : Chars
  search_results : Option (List SearchResult)
  lastChunk : Option StreamChunk
deriving DecidableEq, Repr

def initialConsumeAcc : ConsumeAcc :=
  { content := [], search_results := none, lastChunk := none }

/-- Loop body of `consumePerplexityStream` for one parsed chunk (part_000
lines 1092-1109): remember the chunk as `lastChunk`, append the truthy
delta, and capture `search_results` only while none have been captured yet
(JS: `if (chunk.search_results && !searchResults)`; an already stored array
is truthy — even the empty one — so the first present list wins). -/
def applyConsumeChunk (c : StreamChunk) (acc : ConsumeAcc) : ConsumeAcc :=
  { lastChunk := some c,
    content := acc.content ++ chunkDelta c,
    search_results :=
      match acc.search_results, c.search_results with
      | none, some rs => some rs
      | _, _ => acc.search_results }

/-- The record-level accumulation of `handleStreamingResponse` over a decoded
event sequence. -/
def handleStreamingFold (cs : List StreamChunk) : SseAcc :=
  cs.foldl (fun a c => applyStreamChunk c a) initialSseAcc

/-- The record-level accumulation of `consumePerplexityStream` over a decoded
event sequence. -/
def consumeFold (cs : List StreamChunk) : ConsumeAcc :=
  cs.foldl (fun a c => applyConsumeChunk c a) initialConsumeAcc

theorem applyStreamChunk_fold_sr (cs : List StreamChunk) :
    ∀ a : SseAcc, (cs.foldl (fun a c => applyStreamChunk c a) a).search_results =
      match (cs.filterMap StreamChunk.search_results).getLast? with
      | some rs => some rs
      | none => a.search_results := by
  induction cs with
  | nil => intro a; simp
  | cons c cs' ih =>
    intro a
    rw [List.foldl_cons, ih]
    cases hsr : c.search_results with
    | none =>
      rw [List.filterMap_cons_none hsr]
      have h1 : (applyStreamChunk c a).search_results = a.search_results := by
        simp [applyStreamChunk, hsr]
      rw [h1]
    | some rs =>
      rw [List.filterMap_cons_some hsr]
      have h1 : (applyStreamChunk c a).search_results = some rs := by
        simp [applyStreamChunk, hsr]
      rw [h1]
      cases hfm : cs'.filterMap StreamChunk.search_results with
      | nil => simp
      | cons x xs =>
        rw [List.getLast?_cons_cons]
        cases hgl : (x :: xs : List (List SearchResult)).getLast? with
        | none => exact absurd (List.getLast?_eq_none_iff.mp hgl) (List.cons_ne_nil x xs)
        | some r => rfl

theorem applyConsumeChunk_fold_sr (cs : List StreamChunk) :
    ∀ a : ConsumeAcc, (cs.foldl (fun a c => applyConsumeChunk c a) a).search_results =
      match a.search_results with
      | some rs => some rs
      | none => (cs.filterMap StreamChunk.search_results).head? := by
  induction cs with
  | nil => intro a; cases ha : a.search_results <;> simp [ha]
  | cons c cs' ih =>
    intro a
    rw [List.foldl_cons, ih]
    cases ha : a.search_results with
    | some rs =>
      have h1 : (applyConsumeChunk c a).search_results = some rs := by
        cases hc : c.search_results <;> simp [applyConsumeChunk, ha, hc]
      rw [h1]
    | none =>
      cases hsr : c.search_results with
      | some rs =>
        have h1 : (applyConsumeChunk c a).search_results = some rs := by
          simp [applyConsumeChunk, ha, hsr]
        rw [h1, List.filterMap_cons_some hsr]
        rfl
      | none =>
        have h1 : (applyConsumeChunk c a).search_results = none := by
          simp [applyConsumeChunk, ha, hsr]
        rw [h1, List.filterMap_cons_none hsr]

/-- Modelled from the spec claim, for comparison only: the citation list of
the last record that carries a non-empty citation list. -/
def lastNonEmptyCitations (cs : List StreamChunk) : Option (List SearchResult) :=
  (cs.filterMap (fun c =>
    match c.search_results with
    | some rs => if rs ≠ [] then some rs else none
    | none => none)).getLast?

def srW : SearchResult := { title := "t".data, url := "u".data, snippet := none }

def srW2 : SearchResult := { title := "t2".data, url := "u2".data, snippet := none }

/-- A frame carrying the one-element citation list `[srW]`. -/
def chunkCit : StreamChunk :=
  { id := "a".data, model := "m".data, choices := [],
    search_results := some [srW], usage := none }

/-- A frame carrying a present but empty citation list. -/
def chunkEmptyCit : StreamChunk :=
  { id := "b".data, model := "m".data, choices := [],
    search_results := some [], usage := none }

/-- A later frame carrying the citation list `[srW2]`. -/
def chunkCit2 : StreamChunk :=
  { id := "c".data, model := "m".data, choices := [],
    search_results := some [srW2], usage := none }

/-- C2 counterexample: the claim fails on the code in both directions. In
`handleStreamingResponse` a present-but-empty citation list replaces the
previously captured non-empty one (any JS array is truthy), so the final
list is `[]`, not the last non-empty list `[srW]`. In
`consumePerplexityStream` the first captured list wins, so with two
non-empty lists the final list is the first one, not the last one. -/
theorem c2_counterexample :
    lastNonEmptyCitations [chunkCit, chunkEmptyCit] = some [srW] ∧
    (handleStreamingFold [chunkCit, chunkEmptyCit]).search_results = some [] ∧
    some ([] : List SearchResult) ≠ some [srW] ∧
    lastNonEmptyCitations [chunkCit, chunkCit2] = some [srW2] ∧
    (consumeFold [chunkCit, chunkCit2]).search_results = some [srW] ∧
    some [srW] ≠ some [srW2] := by
  refine ⟨rfl, rfl, by decide, rfl, rfl, by decide⟩

/-- C2 (amended): in `handleStreamingResponse` the final accumulated citation
list is the citation list of the last record that carries a citation field
(a present empty list does replace, an absent field never clears); in
`consumePerplexityStream` it is the citation list of the first record that
carries a citation field. -/
theorem c2_amended_citation_capture (cs : List StreamChunk) :
    (handleStreamingFold cs).search_results =
      (cs.filterMap StreamChunk.search_results).getLast? ∧
    (consumeFold cs).search_results =
      (cs.filterMap StreamChunk.search_results).head? := by
  constructor
  · rw [handleStreamingFold, applyStreamChunk_fold_sr]
    cases (cs.filterMap StreamChunk.search_results).getLast? <;> simp [initialSseAcc]
  · rw [consumeFold, applyConsumeChunk_fold_sr]
    simp [initialConsumeAcc]

/-- The placeholder text `'No response generated.'`. -/
def noResponseChars : Chars := "No response generated.".data

/-- JS `s || d` on strings: the empty string is falsy and falls back to the
default. -/
def jsOrChars (v : Option Chars) (d : Chars) : Chars :=
  match v with
  | some s => if s = [] then d else s
  | none => d

/-- `formatSearchResults` from the source: the empty string for an empty
result list, otherwise a `## Sources` section listing every citation with
its 1-based index, title, url and optional snippet. -/
def formatSearchResults (results : List SearchResult) : Chars :=
  if results = [] then []
  else
    "\n\n## Sources\n\n".data ++
      (results.enum.map (fun p =>
        (Nat.repr (p.1 + 1)).data ++ ". **".data ++ p.2.title ++ "**\n".data ++
        "   ".data ++ p.2.url ++ "\n".data ++
        (match p.2.snippet with
         | some s => "   ".data ++ s ++ "\n".data
         | none => []) ++
        "\n".data)).flatten

/-- Final value of `handleStreamingResponse` (index.ts lines 333-334):
`content + (searchResults ? formatSearchResults(searchResults) : '')`.
No empty-content placeholder exists on this path. -/
def handleStreamingFinal (acc : SseAcc) : Chars :=
  acc.content ++
    (match acc.search_results with
     | some rs => formatSearchResults rs
     | none => [])

/-- `message` part of a non-streaming choice. -/
structure CCMessage where
  role : Chars
  content : Chars
deriving DecidableEq, Repr

/-- A non-streaming choice. -/
structure CCChoice where
  message : CCMessage
  finish_reason : Chars
  index : Nat
deriving DecidableEq, Repr

/-- `ChatCompletionResponse` from the source. -/
structure ChatCompletionResponse where
  id : Chars
  model : Chars
  choices : List CCChoice
  search_results : Option (List SearchResult)
  usage : Option Usage
deriving DecidableEq, Repr

/-- The result construction of `consumePerplexityStream` (part_000 lines
1113-1129): ids fall back through `||` defaults, the accumulated content
falls back to the placeholder when empty, and the captured citations are
carried as-is. -/
def consumeFinalize (acc : ConsumeAcc) : ChatCompletionResponse :=
  { id := jsOrChars (acc.lastChunk.map StreamChunk.id) "unknown".data,
    model := jsOrChars (acc.lastChunk.map StreamChunk.model) "sonar".data,
    choices := [{ message := { role := "assistant".data,
                               content := jsOrChars (some acc.content) noResponseChars },
                  finish_reason := "stop".data, index := 0 }],
    search_results := acc.search_results,
    usage := acc.lastChunk.bind StreamChunk.usage }

/-- One element of the caller-facing `content` array. -/
inductive ContentBlock where
  | text (t : Chars)
  | resource (results : List SearchResult)
deriving DecidableEq, Repr

/-- The content-array construction of the HTTP handlers after consuming the
stream (part_000 lines 1580-1595 and 1423-1438): a text block only when the
message content is truthy, and a `search_results` resource block only when
citations are present and non-empty. -/
def buildContent (r : ChatCompletionResponse) : List ContentBlock :=
  (match r.choices.head? with
   | some ch => if ch.message.content ≠ [] then [ContentBlock.text ch.message.content] else []
   | none => []) ++
  (match r.search_results with
   | some rs => if rs.length > 0 then [ContentBlock.resource rs] else []
   | none => [])

/-- C3 counterexample: on the `handleStreamingResponse` consolidated path an
event sequence that ends with zero accumulated text and no citations yields
the empty string, not the `'No response generated.'` placeholder that the
claim requires for every consolidated result. -/
theorem c3_counterexample :
    handleStreamingFinal (handleStreamingFold []) = [] ∧
    ([] : Chars) ≠ noResponseChars := by
  refine ⟨rfl, by decide⟩

/-- C3 (amended): with zero accumulated text and no citations,
`consumePerplexityStream` followed by the HTTP content-array construction
yields exactly one text block holding `'No response generated.'` and no
citation segment, while `handleStreamingResponse` yields the empty string
(no placeholder on that path). -/
theorem c3_amended_empty_stream_result :
    (∀ acc : SseAcc, acc.content = [] → acc.search_results = none →
      handleStreamingFinal acc = []) ∧
    (∀ acc : ConsumeAcc, acc.content = [] → acc.search_results = none →
      buildContent (consumeFinalize acc) = [ContentBlock.text noResponseChars]) := by
  constructor
  · intro acc h1 h2
    simp [handleStreamingFinal, h1, h2]
  · intro acc h1 h2
    have hne : ¬ noResponseChars = [] := by decide
    simp [buildContent, consumeFinalize, h1, h2, jsOrChars, hne]

theorem c3_witness :
    initialSseAcc.content = [] ∧ initialSseAcc.search_results = none ∧
    handleStreamingFinal initialSseAcc = [] ∧
    initialConsumeAcc.content = [] ∧ initialConsumeAcc.search_results = none ∧
    buildContent (consumeFinalize initialConsumeAcc) = [ContentBlock.text noResponseChars] :=
  ⟨rfl, rfl, c3_amended_empty_stream_result.1 initialSseAcc rfl rfl,
    rfl, rfl, c3_amended_empty_stream_result.2 initialConsumeAcc rfl rfl⟩

/-- An upstream HTTP response, observed through `response.status` and
`response.ok`. -/
structure HttpResp where
  status : Nat
deriving DecidableEq, Repr

/-- `Response.ok`: the status is in the 2xx range. -/
def respOk (r : HttpResp) : Bool := 200 ≤ r.status && r.status < 300

/-- `RETRYABLE_STATUS` from the source: the fixed set of transient statuses. -/
def RETRYABLE_STATUS : List Nat := [408, 429, 500, 502, 503, 504]

/-- Outcome of a single `undiciFetch` attempt: a resolved response, or a
rejection (abort or other network error). -/
inductive FetchResult where
  | resolved (r : HttpResp)
  | rejected (abortError : Bool)
deriving DecidableEq, Repr

/-- How `retryFetch` terminates: with a returned response, by rethrowing an
abort, by rethrowing the last fetch error, or via the post-loop
`throw new Error('retryFetch reached unexpected state')`. -/
inductive RFOutcome where
  | returned (r : HttpResp)
  | threwAbort
  | threwFetchError
  | unexpectedState
deriving DecidableEq, Repr

/-- The `for (let attempt = 0; attempt < maxAttempts; attempt++)` loop of
`retryFetch` (part_001 lines 166-211 and part_000 lines 889-934).
The network is abstracted as `fetch : Nat → FetchResult` (the outcome of the
attempt with that index) and the abort signal as `abortedAt : Nat → Bool`
(the `options.signal?.aborted` poll at the start of that attempt).
`remaining` is structural fuel equal to `maxAttempts - attempt`, so the
`remaining = 0` case is exactly the loop exiting and reaching the trailing
`throw new Error('retryFetch reached unexpected state')`. The second
component counts how many network calls were issued. The backoff sleep has
no observable effect in this model. -/
def retryFetchGo (fetch : Nat → FetchResult) (abortedAt : Nat → Bool)
    (maxAttempts : Nat) : Nat → Nat → Nat → RFOutcome × Nat
  | _, 0, calls => (.unexpectedState, calls)
  | attempt, remaining + 1, calls =>
    if abortedAt attempt then (.threwAbort, calls)
    else
      match fetch attempt with
      | .resolved r =>
        if respOk r || ! RETRYABLE_STATUS.contains r.status then (.returned r, calls + 1)
        else if attempt = maxAttempts - 1 then (.returned r, calls + 1)
        else retryFetchGo fetch abortedAt maxAttempts (attempt + 1) remaining (calls + 1)
      | .rejected ab =>
        if ab then (.threwAbort, calls + 1)
        else if attempt = maxAttempts - 1 then (.threwFetchError, calls + 1)
        else retryFetchGo fetch abortedAt maxAttempts (attempt + 1) remaining (calls + 1)

/-- `retryFetch` itself: run the loop from attempt 0. -/
def retryFetch (fetch : Nat → FetchResult) (abortedAt : Nat → Bool)
    (maxAttempts : Nat) : RFOutcome × Nat :=
  retryFetchGo fetch abortedAt maxAttempts 0 maxAttempts 0

theorem retryFetchGo_not_unexpected (fetch : Nat → FetchResult) (abortedAt : Nat → Bool)
    (maxAttempts : Nat) :
    ∀ remaining attempt calls, attempt + remaining = maxAttempts → 1 ≤ remaining →
      (retryFetchGo fetch abortedAt maxAttempts attempt remaining calls).1 ≠
        RFOutcome.unexpectedState := by
  intro remaining
  induction remaining with
  | zero => intro attempt calls _ h2; omega
  | succ k ih =>
    intro attempt calls h1 _
    simp only [retryFetchGo]
    by_cases hab : abortedAt attempt = true
    · simp [hab]
    · simp only [hab, Bool.false_eq_true, if_false]
      cases hf : fetch attempt with
      | resolved r =>
        dsimp only
        by_cases hok : (respOk r || ! RETRYABLE_STATUS.contains r.status) = true
        · rw [if_pos hok]; simp
        · rw [if_neg hok]
          by_cases hlast : attempt = maxAttempts - 1
          · rw [if_pos hlast]; simp
          · rw [if_neg hlast]
            exact ih (attempt + 1) (calls + 1) (by omega) (by omega)
      | rejected ab =>
        dsimp only
        by_cases habe : ab = true
        · rw [if_pos habe]; simp
        · rw [if_neg habe]
          by_cases hlast : attempt = maxAttempts - 1
          · rw [if_pos hlast]; simp
          · rw [if_neg hlast]
            exact ih (attempt + 1) (calls + 1) (by omega) (by omega)

theorem retryFetchGo_calls_le (fetch : Nat → FetchResult) (abortedAt : Nat → Bool)
    (maxAttempts : Nat) :
    ∀ remaining attempt calls,
      (retryFetchGo fetch abortedAt maxAttempts attempt remaining calls).2 ≤
        calls + remaining := by
  intro remaining
  induction remaining with
  | zero => intro attempt calls; simp [retryFetchGo]
  | succ k ih =>
    intro attempt calls
    simp only [retryFetchGo]
    by_cases hab : abortedAt attempt = true
    · simp [hab]
    · simp only [hab, Bool.false_eq_true, if_false]
      cases hf : fetch attempt with
      | resolved r =>
        dsimp only
        by_cases hok : (respOk r || ! RETRYABLE_STATUS.contains r.status) = true
        · rw [if_pos hok]; simp
        · rw [if_neg hok]
          by_cases hlast : attempt = maxAttempts - 1
          · rw [if_pos hlast]; simp
          · rw [if_neg hlast]
            have := ih (attempt + 1) (calls + 1)
            omega
      | rejected ab =>
        dsimp only
        by_cases habe : ab = true
        · rw [if_pos habe]; simp
        · rw [if_neg habe]
          by_cases hlast : attempt = maxAttempts - 1
          · rw [if_pos hlast]; simp
          · rw [if_neg hlast]
            have := ih (attempt + 1) (calls + 1)
            omega

/-- C9: for every number of attempts at least 1 and every sequence of
per-attempt outcomes (resolved status, thrown error, abort), `retryFetch`
either returns a response or propagates a thrown error within the loop;
the trailing `throw new Error('retryFetch reached unexpected state')` is
unreachable. -/
theorem c9_retryFetch_no_unexpected_state (fetch : Nat → FetchResult)
    (abortedAt : Nat → Bool) (maxAttempts : Nat) (h : 1 ≤ maxAttempts) :
    (retryFetch fetch abortedAt maxAttempts).1 ≠ RFOutcome.unexpectedState :=
  retryFetchGo_not_unexpected fetch abortedAt maxAttempts maxAttempts 0 0 (by omega) h

theorem c9_witness :
    1 ≤ 2 ∧
    (retryFetch (fun _ => FetchResult.resolved { status := 200 }) (fun _ => false) 2).1 ≠
      RFOutcome.unexpectedState :=
  ⟨by decide,
    c9_retryFetch_no_unexpected_state (fun _ => FetchResult.resolved { status := 200 })
      (fun _ => false) 2 (by decide)⟩

/-- Attempt outcomes for the C5 counterexample: a 501 on the first attempt,
a 200 available on the second. -/
def fetch501 (i : Nat) : FetchResult :=
  if i = 0 then .resolved { status := 501 } else .resolved { status := 200 }

/-- C5 counterexample: 501 is a 5xx server error, yet it is not in
`RETRYABLE_STATUS`; with a 501 on attempt 1 and a success available on
attempt 2, `retryFetch` issues exactly one network call and surfaces the
501 response — not the two calls returning the success that the claim
predicts for a first-attempt 5xx. -/
theorem c5_counterexample :
    500 ≤ 501 ∧ 501 < 600 ∧
    fetch501 0 = FetchResult.resolved { status := 501 } ∧
    fetch501 1 = FetchResult.resolved { status := 200 } ∧
    retryFetch fetch501 (fun _ => false) 2 =
      (RFOutcome.returned { status := 501 }, 1) := by
  refine ⟨by decide, by decide, rfl, rfl, by decide⟩

/-- C5 (amended): the retryable set is exactly `RETRYABLE_STATUS`
= {408, 429, 500, 502, 503, 504}, not every 5xx. For the configured two
attempts: a retryable first status followed by a resolved success yields
exactly 2 network calls and returns the success; a first response whose
status is outside the retryable set (for example 404 — but also 501) is
surfaced after exactly 1 call; and no execution makes more than 2 calls. -/
theorem c5_amended_retry_policy (fetch : Nat → FetchResult) (abortedAt : Nat → Bool)
    (r0 r1 : HttpResp) :
    (abortedAt 0 = false → abortedAt 1 = false →
      fetch 0 = FetchResult.resolved r0 → r0.status ∈ RETRYABLE_STATUS →
      fetch 1 = FetchResult.resolved r1 → respOk r1 = true →
      retryFetch fetch abortedAt 2 = (RFOutcome.returned r1, 2)) ∧
    (abortedAt 0 = false → fetch 0 = FetchResult.resolved r0 →
      r0.status ∉ RETRYABLE_STATUS →
      retryFetch fetch abortedAt 2 = (RFOutcome.returned r0, 1)) ∧
    (retryFetch fetch abortedAt 2).2 ≤ 2 := by
  refine ⟨?_, ?_, ?_⟩
  · intro ha0 ha1 hf0 hmem hf1 hok1
    have hstat : r0.status = 408 ∨ r0.status = 429 ∨ r0.status = 500 ∨ r0.status = 502 ∨
        r0.status = 503 ∨ r0.status = 504 := by
      simpa [RETRYABLE_STATUS] using hmem
    have hok0 : respOk r0 = false := by
      rcases hstat with h | h | h | h | h | h <;> simp [respOk, h]
    have hcont : RETRYABLE_STATUS.contains r0.status = true := by
      rcases hstat with h | h | h | h | h | h <;> rw [h] <;> decide
    simp [retryFetch, retryFetchGo, ha0, ha1, hf0, hf1, hok0, hcont, hok1, hmem]
  · intro ha0 hf0 hmem
    have hcont : RETRYABLE_STATUS.contains r0.status = false := by
      cases hcc : RETRYABLE_STATUS.contains r0.status
      · rfl
      · exact absurd (List.elem_iff.mp hcc) hmem
    simp [retryFetch, retryFetchGo, ha0, hf0, hcont, hmem]
  · have := retryFetchGo_calls_le fetch abortedAt 2 2 0 0
    simpa [retryFetch] using this

theorem c5_witness :
    let fetchW : Nat → FetchResult := fun i =>
      if i = 0 then .resolved { status := 503 } else .resolved { status := 200 }
    let fetchN : Nat → FetchResult := fun _ => .resolved { status := 404 }
    retryFetch fetchW (fun _ => false) 2 = (RFOutcome.returned { status := 200 }, 2) ∧
    retryFetch fetchN (fun _ => false) 2 = (RFOutcome.returned { status := 404 }, 1) ∧
    (retryFetch fetchW (fun _ => false) 2).2 ≤ 2 := by
  refine ⟨?_, ?_, ?_⟩
  · exact (c5_amended_retry_policy _ (fun _ => false) { status := 503 } { status := 200 }).1
      rfl rfl rfl (by decide) rfl (by decide)
  · exact (c5_amended_retry_policy _ (fun _ => false) { status := 404 } { status := 200 }).2.1
      rfl rfl (by decide)
  · exact (c5_amended_retry_policy _ (fun _ => false) { status := 503 } { status := 200 }).2.2

/-- A JSON value supplied by the caller for a tool argument; arrays and
objects are opaque because the handlers only inspect `typeof`. -/
inductive JsonVal where
  | strV (s : Chars)
  | numV (q : Rat)
  | boolV (b : Bool)
  | nullV
  | arrV
  | objV
deriving DecidableEq, Repr

/-- JS `typeof v === 'string'`. -/
def JsonVal.isStr : JsonVal → Bool
  | .strV _ => true
  | _ => false

/-- JS `typeof v === 'number'`. -/
def JsonVal.isNum : JsonVal → Bool
  | .numV _ => true
  | _ => false

/-- JS `typeof v === 'boolean'`. -/
def JsonVal.isBool : JsonVal → Bool
  | .boolV _ => true
  | _ => false

/-- The named arguments of one tools/call request; `none` is an absent
property. -/
structure ArgsR where
  query : Option JsonVal := none
  model : Option JsonVal := none
  stream : Option JsonVal := none
  search_mode : Option JsonVal := none
  recency_filter : Option JsonVal := none
  reasoning_effort : Option JsonVal := none
  max_tokens : Option JsonVal := none
  temperature : Option JsonVal := none
  search_context_size : Option JsonVal := none
deriving DecidableEq, Repr

/-- `typeof x === 'string' ? x : undefined`. -/
def asStrField : Option JsonVal → Option Chars
  | some (.strV s) => some s
  | _ => none

/-- `typeof x === 'number' ? x : undefined`. -/
def asNumField : Option JsonVal → Option Rat
  | some (.numV q) => some q
  | _ => none

/-- `typeof x === 'boolean' ? x : undefined`. -/
def asBoolField : Option JsonVal → Option Bool
  | some (.boolV b) => some b
  | _ => none

/-- The options object handed to `performSearch` in index.ts. -/
structure SearchOptions where
  model : Option Chars
  stream : Option Bool
  search_mode : Option Chars
  recency_filter : Option Chars
  reasoning_effort : Option Chars
  max_tokens : Option Rat
  temperature : Option Rat
deriving DecidableEq, Repr

/-- The argument coercion of the stdio tools/call handler (index.ts lines
390-398): every optional argument of the wrong runtime type is passed as
`undefined` (absent). -/
def coerceOpts (a : ArgsR) : SearchOptions :=
  { model := asStrField a.model,
    stream := asBoolField a.stream,
    search_mode := asStrField a.search_mode,
    recency_filter := asStrField a.recency_filter,
    reasoning_effort := asStrField a.reasoning_effort,
    max_tokens := asNumField a.max_tokens,
    temperature := asNumField a.temperature }

/-- JS `if (x) body.f = x` on an optional string: empty strings are falsy
and dropped. -/
def keepTruthyChars : Option Chars → Option Chars
  | some s => if s = [] then none else some s
  | none => none

/-- JS `if (x) body.f = x` on an optional number: 0 is falsy and dropped. -/
def keepTruthyNum : Option Rat → Option Rat
  | some q => if q = 0 then none else some q
  | none => none

/-- The JSON body POSTed to the upstream completion endpoint; `content` is
the single user message. -/
structure RequestBody where
  model : Chars
  content : Chars
  stream : Bool
  search_mode : Option Chars
  recency_filter : Option Chars
  reasoning_effort : Option Chars
  max_tokens : Option Rat
  temperature : Option Rat
deriving DecidableEq, Repr

/-- The upstream request body built by `performSearch` in index.ts (lines
194-224): `model || 'sonar'`, `stream || false`, truthiness guards on the
optional string fields and on `max_tokens` (so 0 is dropped), and an
`!== undefined` guard on `temperature` (so 0 is forwarded). No field is
clamped or range-checked. -/
def performSearchBody (query : Chars) (o : SearchOptions) : RequestBody :=
  { model := jsOrChars o.model "sonar".data,
    content := query,
    stream := o.stream.getD false,
    search_mode := keepTruthyChars o.search_mode,
    recency_filter := keepTruthyChars o.recency_filter,
    reasoning_effort := keepTruthyChars o.reasoning_effort,
    max_tokens := keepTruthyNum o.max_tokens,
    temperature := o.temperature }

/-- The options object of `performSearch` in part_001 (adds
`search_context_size`). -/
structure SearchOptions001 where
  model : Option Chars
  stream : Option Bool
  search_mode : Option Chars
  recency_filter : Option Chars
  reasoning_effort : Option Chars
  max_tokens : Option Rat
  temperature : Option Rat
  search_context_size : Option Chars
deriving DecidableEq, Repr

/-- The upstream request body of the part_001 variant. -/
structure RequestBody001 where
  model : Chars
  content : Chars
  stream : Bool
  search_mode : Option Chars
  recency_filter : Option Chars
  reasoning_effort : Option Chars
  max_tokens : Option Rat
  temperature : Option Rat
  search_context_size : Option Chars
deriving DecidableEq, Repr

/-- The upstream request body built by `performSearch` in part_001 (lines
260-297): the same guards as index.ts, except that `stream` defaults to
true (`options.stream !== undefined ? options.stream : true`) and a truthy
`search_context_size` is forwarded inside `web_search_options`. -/
def performSearchBody001 (query : Chars) (o : SearchOptions001) : RequestBody001 :=
  { model := jsOrChars o.model "sonar".data,
    content := query,
    stream := o.stream.getD true,
    search_mode := keepTruthyChars o.search_mode,
    recency_filter := keepTruthyChars o.recency_filter,
    reasoning_effort := keepTruthyChars o.reasoning_effort,
    max_tokens := keepTruthyNum o.max_tokens,
    temperature := o.temperature,
    search_context_size := keepTruthyChars o.search_context_size }

/-- The tool name checked by every dispatcher. -/
def toolNameChars : Chars := "perplexity-completions".data

/-- The observable outcome of awaiting `performSearch` (and, on the HTTP
variants, of the subsequent server-side stream consumption): a resolved
result, or a thrown error (network failure, timeout, upstream non-2xx,
stream failure). -/
inductive PSResult where
  | success (text : Chars)
  | thrown (msg : Chars)
deriving DecidableEq, Repr

/-- The protocol-level result of a stdio tool call: the `isError` flag of
the returned content payload (stdio has no transport status at all). -/
structure ToolReply where
  isError : Bool
deriving DecidableEq, Repr

/-- An HTTP reply: transport status plus the `isError` flag of the JSON
body (error-shaped bodies count as `isError := true`). -/
structure HttpReply where
  status : Nat
  isError : Bool
deriving DecidableEq, Repr

/-- A JSON-RPC HTTP reply: transport status plus whether the body carries a
JSON-RPC `error` object instead of a `result`. -/
structure RpcReply where
  status : Nat
  rpcError : Bool
deriving DecidableEq, Repr

/-- The stdio CallToolRequestSchema handler (index.ts lines 365-424; the
part_001 variant is identical in this respect): missing arguments or a
non-string `query` throw before `performSearch` is reached, and every
throw is caught and returned as a protocol-level result with
`isError: true`. The second component records whether `performSearch` —
and hence an upstream network call — was reached. -/
def stdioCallTool (name : Chars) (args : Option ArgsR) (ps : PSResult) :
    ToolReply × Bool :=
  match args with
  | none => ({ isError := true }, false)
  | some a =>
    if name = toolNameChars then
      match a.query with
      | some (JsonVal.strV _) =>
        match ps with
        | .thrown _ => ({ isError := true }, true)
        | .success _ => ({ isError := false }, true)
      | _ => ({ isError := true }, false)
    else ({ isError := true }, false)

/-- The JSON-RPC tools/call branch of the part_000 /mcp endpoint (lines
1388-1496). There is no explicit query validation, but
`query.substring(0, 50)` throws a TypeError for every non-string JSON
value, and both that throw and the destructuring of an absent `arguments`
object are caught by the inner catch, which answers with a JSON-RPC error
object at HTTP 200 — before any network call. The flag records whether
`performSearch` was reached. -/
def mcpRpcToolsCallHttp (name : Chars) (args : Option ArgsR) (ps : PSResult) :
    RpcReply × Bool :=
  if name = toolNameChars then
    match args with
    | none => ({ status := 200, rpcError := true }, false)
    | some a =>
      match a.query with
      | some (JsonVal.strV _) =>
        match ps with
        | .thrown _ => ({ status := 200, rpcError := true }, true)
        | .success _ => ({ status := 200, rpcError := false }, true)
      | _ => ({ status := 200, rpcError := true }, false)
  else ({ status := 200, rpcError := true }, false)

/-- The JSON-RPC tools/call branch of the server.ts /mcp endpoint (lines
522-583). Unlike every other entry variant there is no query validation
and `query` is never otherwise touched before the upstream call, so
`performSearch` is reached — and a network call issued — even when `query`
is absent or not a string. -/
def mcpRpcToolsCallServer (name : Chars) (args : Option ArgsR) (ps : PSResult) :
    RpcReply × Bool :=
  if name = toolNameChars then
    match args with
    | none => ({ status := 200, rpcError := true }, false)
    | some _ =>
      match ps with
      | .thrown _ => ({ status := 200, rpcError := true }, true)
      | .success _ => ({ status := 200, rpcError := false }, true)
  else ({ status := 200, rpcError := true }, false)

/-- The /mcp/call endpoint handler (server.ts lines 615-679 and part_000
lines 1529-1645): absent arguments, a non-string `query` and an unknown
tool name are answered with HTTP 400; a throw out of `performSearch` (or
of the stream consumption) reaches the catch, which answers HTTP 500 with
an `isError: true` body; a resolved result is answered HTTP 200 with
`isError: false`. -/
def mcpCallHandler (name : Chars) (args : Option ArgsR) (ps : PSResult) : HttpReply :=
  match args with
  | none => { status := 400, isError := true }
  | some a =>
    if name = toolNameChars then
      match a.query with
      | some (JsonVal.strV _) =>
        match ps with
        | .thrown _ => { status := 500, isError := true }
        | .success _ => { status := 200, isError := false }
      | _ => { status := 400, isError := true }
    else { status := 400, isError := true }

/-- C4: evaluation of the code at the failing input. In the server.ts
JSON-RPC tools/call path a request whose arguments object carries no
`query` (or any non-string one) still reaches `performSearch`, so an
upstream network call is issued instead of the required
InputError-without-call; by contrast the stdio handler and the part_000
JSON-RPC path answer with an error result and no network call. -/
theorem c4_code_eval (ps : PSResult) (a : ArgsR) :
    (mcpRpcToolsCallServer toolNameChars (some a) ps).2 = true ∧
    stdioCallTool toolNameChars (some ({} : ArgsR)) ps = ({ isError := true }, false) ∧
    mcpRpcToolsCallHttp toolNameChars (some ({} : ArgsR)) ps =
      ({ status := 200, rpcError := true }, false) := by
  refine ⟨?_, ?_, ?_⟩ <;>
    cases ps <;>
      simp [mcpRpcToolsCallServer, stdioCallTool, mcpRpcToolsCallHttp]

/-- The arguments of a well-formed call: `query` is the string `"q"`. -/
def argsQ : ArgsR := { query := some (.strV "q".data) }

/-- C6 counterexample: after successful input validation, a thrown
`performSearch` error is answered by the /mcp/call endpoints with
transport-level HTTP 500 — not as a protocol-level success — while
malformed caller input is answered with 400, not 5xx. Both directions
contradict the claim. -/
theorem c6_counterexample :
    (mcpCallHandler toolNameChars (some argsQ)
      (.thrown "Network error while calling Perplexity API".data)).status = 500 ∧
    (mcpCallHandler toolNameChars none (.success [])).status = 400 :=
  ⟨rfl, rfl⟩

/-- C6 (amended): every post-validation error is reported through a
structured error payload — as a protocol-level result on the stdio handler
(`isError: true`, stdio has no transport status) and on the JSON-RPC /mcp
endpoints (HTTP 200 carrying a JSON-RPC error object) — but the /mcp/call
endpoints deliver it with transport-level HTTP 500 (body still
`isError: true`), and transport-level 400 is what malformed caller input
receives. -/
theorem c6_amended_error_reporting (name : Chars) (a : ArgsR) (s m : Chars) :
    (stdioCallTool toolNameChars (some a) (.thrown m)).1.isError = true ∧
    (a.query = some (.strV s) →
      mcpRpcToolsCallServer toolNameChars (some a) (.thrown m) =
        ({ status := 200, rpcError := true }, true)) ∧
    (a.query = some (.strV s) →
      mcpCallHandler toolNameChars (some a) (.thrown m) =
        { status := 500, isError := true }) ∧
    (mcpCallHandler name none (.thrown m)).status = 400 ∧
    (a.query = some (.strV s) →
      mcpCallHandler toolNameChars (some a) (.success s) =
        { status := 200, isError := false }) := by
  refine ⟨?_, fun h => ?_, fun h => ?_, rfl, fun h => ?_⟩
  · rcases hq : a.query with _ | v
    · simp [stdioCallTool, hq]
    · cases v <;> simp [stdioCallTool, hq]
  · simp [mcpRpcToolsCallServer]
  · simp [mcpCallHandler, h]
  · simp [mcpCallHandler, h]

theorem c6_witness :
    argsQ.query = some (.strV "q".data) ∧
    (stdioCallTool toolNameChars (some argsQ) (.thrown "boom".data)).1.isError = true ∧
    mcpRpcToolsCallServer toolNameChars (some argsQ) (.thrown "boom".data) =
      ({ status := 200, rpcError := true }, true) ∧
    mcpCallHandler toolNameChars (some argsQ) (.thrown "boom".data) =
      { status := 500, isError := true } ∧
    (mcpCallHandler "x".data none (.thrown "boom".data)).status = 400 ∧
    mcpCallHandler toolNameChars (some argsQ) (.success "q".data) =
      { status := 200, isError := false } := by
  have h := c6_amended_error_reporting "x".data argsQ "q".data "boom".data
  exact ⟨rfl, h.1, h.2.1 rfl, h.2.2.1 rfl, h.2.2.2.1, h.2.2.2.2 rfl⟩

/-- Arguments carrying out-of-range numeric values of the correct runtime
type: `max_tokens = 10000` (documented maximum 4096) and
`temperature = 5` (documented range [0, 2]). -/
def argsOutOfRange : ArgsR :=
  { query := some (.strV "q".data), max_tokens := some (.numV 10000),
    temperature := some (.numV 5) }

/-- C7 counterexample: out-of-range numeric arguments of the correct
runtime type are forwarded verbatim into the upstream request body — the
code neither clamps nor ignores them, contradicting the claim that
out-of-range numerics are clamped or ignored. -/
theorem c7_counterexample :
    (10000 : Rat) > 4096 ∧ (5 : Rat) > 2 ∧
    (performSearchBody "q".data (coerceOpts argsOutOfRange)).max_tokens = some 10000 ∧
    (performSearchBody "q".data (coerceOpts argsOutOfRange)).temperature = some 5 := by
  refine ⟨by norm_num, by norm_num, by decide, by decide⟩

/-- C7 (amended): each optional argument of the wrong runtime type is
coerced to `undefined`, so the dispatcher builds exactly the request it
would build with the field absent (falling back to its default); numeric
fields of the correct type, in range or not, are forwarded verbatim — no
clamping and no range validation exist — and the only numeric value that
is dropped is a falsy `max_tokens` of 0. -/
theorem c7_amended_permissive_args (a : ArgsR) (v : JsonVal) (q : Chars) (n t : Rat) :
    (v.isStr = false →
      coerceOpts { a with model := some v } = coerceOpts { a with model := none }) ∧
    (v.isStr = false →
      coerceOpts { a with search_mode := some v } = coerceOpts { a with search_mode := none }) ∧
    (v.isStr = false →
      coerceOpts { a with recency_filter := some v } =
        coerceOpts { a with recency_filter := none }) ∧
    (v.isStr = false →
      coerceOpts { a with reasoning_effort := some v } =
        coerceOpts { a with reasoning_effort := none }) ∧
    (v.isBool = false →
      coerceOpts { a with stream := some v } = coerceOpts { a with stream := none }) ∧
    (v.isNum = false →
      coerceOpts { a with max_tokens := some v } = coerceOpts { a with max_tokens := none }) ∧
    (v.isNum = false →
      coerceOpts { a with temperature := some v } = coerceOpts { a with temperature := none }) ∧
    (n ≠ 0 →
      (performSearchBody q { coerceOpts a with max_tokens := some n }).max_tokens = some n) ∧
    (performSearchBody q { coerceOpts a with temperature := some t }).temperature = some t := by
  refine ⟨fun h => ?_, fun h => ?_, fun h => ?_, fun h => ?_, fun h => ?_, fun h => ?_,
    fun h => ?_, fun h => ?_, ?_⟩
  case refine_8 => simp [performSearchBody, keepTruthyNum, h]
  case refine_9 => simp [performSearchBody]
  all_goals
    cases v <;>
      simp_all [coerceOpts, asStrField, asNumField, asBoolField,
        JsonVal.isStr, JsonVal.isNum, JsonVal.isBool]

theorem c7_witness :
    JsonVal.nullV.isStr = false ∧ JsonVal.nullV.isNum = false ∧
    JsonVal.nullV.isBool = false ∧ (9999 : Rat) ≠ 0 ∧
    coerceOpts { argsQ with model := some .nullV } = coerceOpts { argsQ with model := none } ∧
    coerceOpts { argsQ with stream := some .nullV } = coerceOpts { argsQ with stream := none } ∧
    coerceOpts { argsQ with max_tokens := some .nullV } =
      coerceOpts { argsQ with max_tokens := none } ∧
    (performSearchBody "q".data
      { coerceOpts argsQ with max_tokens := some 9999 }).max_tokens = some 9999 ∧
    (performSearchBody "q".data
      { coerceOpts argsQ with temperature := some 3 }).temperature = some 3 := by
  have h := c7_amended_permissive_args argsQ .nullV "q".data 9999 3
  exact ⟨rfl, rfl, rfl, by norm_num, h.1 rfl, h.2.2.2.2.1 rfl, h.2.2.2.2.2.1 rfl,
    h.2.2.2.2.2.2.2.1 (by norm_num), h.2.2.2.2.2.2.2.2⟩

/-- C10: `performSearch` omits `max_tokens` from the upstream body whenever
its value is 0 (the falsy guard `if (options.max_tokens)` treats 0 as
absent, so the upstream default applies), while a `temperature` of 0 is
included (guarded by `!== undefined`) — in both the index.ts and the
part_001 variant. -/
theorem c10_max_tokens_zero_vs_temperature_zero (q : Chars)
    (o : SearchOptions) (o1 : SearchOptions001) :
    (o.max_tokens = some 0 → (performSearchBody q o).max_tokens = none) ∧
    (o.temperature = some 0 → (performSearchBody q o).temperature = some 0) ∧
    (o1.max_tokens = some 0 → (performSearchBody001 q o1).max_tokens = none) ∧
    (o1.temperature = some 0 → (performSearchBody001 q o1).temperature = some 0) := by
  refine ⟨fun h => ?_, fun h => ?_, fun h => ?_, fun h => ?_⟩ <;>
    simp [performSearchBody, performSearchBody001, keepTruthyNum, h]

/-- Options with `max_tokens` and `temperature` both 0, for the C10
witness. -/
def optsZero : SearchOptions :=
  { model := none, stream := none, search_mode := none, recency_filter := none,
    reasoning_effort := none, max_tokens := some 0, temperature := some 0 }

/-- The part_001 options with `max_tokens` and `temperature` both 0. -/
def optsZero001 : SearchOptions001 :=
  { model := none, stream := none, search_mode := none, recency_filter := none,
    reasoning_effort := none, max_tokens := some 0, temperature := some 0,
    search_context_size := none }

theorem c10_witness :
    optsZero.max_tokens = some 0 ∧ optsZero.temperature = some 0 ∧
    (performSearchBody "q".data optsZero).max_tokens = none ∧
    (performSearchBody "q".data optsZero).temperature = some 0 ∧
    (performSearchBody001 "q".data optsZero001).max_tokens = none ∧
    (performSearchBody001 "q".data optsZero001).temperature = some 0 := by
  have h := c10_max_tokens_zero_vs_temperature_zero "q".data optsZero optsZero001
  exact ⟨rfl, rfl, h.1 rfl, h.2.1 rfl, h.2.2.1 rfl, h.2.2.2 rfl⟩
